import Mathlib

/-!
Verification of the Zikuli OpenCV wrapper (src/opencv/opencv_wrapper.cpp)
against its natural-language specification.

The wrapper itself (null checks, bounds checks, catch-all error codes,
sentinel accessors, handle lifecycle) is embedded directly from the C++
source.  The numeric engine the wrapper delegates to (cv::matchTemplate,
cv::minMaxLoc, cv::Mat construction, Mat::setTo) is not part of the
repository's sources; those parts are modelled from the specification, as
marked on each definition.

Numeric samples are modelled as exact rationals; where the specification's
formulas require square roots (normalised correlation scores) the score is
real-valued.  C `int32_t` parameters are modelled as integers; where the
source performs arithmetic on them (the `x + width` / `y + height` bounds
additions of `zikuli_mat_set_region`), the addition is reduced into the
int32 range by two's-complement wrap (`wrap32`), the behaviour the compiled
program exhibits when the signed addition overflows.  Undefined behaviour
(use of a dangling handle) is modelled explicitly as an `Option`-`none`
outcome of the operational layer.
-/

set_option maxHeartbeats 1000000

namespace Zikuli

/-- Element depth of an image-buffer sample: 8-bit unsigned or 32-bit float
(the two element types the spec exposes). -/
inductive ElemDepth
  | u8
  | f32
deriving DecidableEq

/-- Bytes per single sample of the given depth. -/
def elemSize : ElemDepth → ℕ
  | .u8 => 1
  | .f32 => 4

/-- Template-matching method selector, mirroring `ZikuliMatchMethod`. -/
inductive MatchMethod
  | SQDIFF
  | SQDIFF_NORMED
  | CCORR
  | CCORR_NORMED
  | CCOEFF
  | CCOEFF_NORMED
deriving DecidableEq

/-- Model of the `cv::Mat` held behind a `ZikuliMat` handle: dimensions,
channel count, element depth, row stride in bytes, and the sample data
(indexed row, column, channel; exact rationals stand for the numeric
sample values). -/
structure ZMat where
  rows : ℕ
  cols : ℕ
  channels : ℕ
  depth : ElemDepth
  stride : ℕ
  data : ℕ → ℕ → ℕ → ℚ

/-- Modelled from the spec: number of pixel/channel samples of the template,
as a rational (used for the means in the CCOEFF family). -/
def pixCount (T : ZMat) : ℚ := ((T.rows * T.cols * T.channels : ℕ) : ℚ)

/-- Modelled from the spec: sum of all template samples. -/
def tSum (T : ZMat) : ℚ :=
  ∑ a ∈ Finset.range T.rows, ∑ b ∈ Finset.range T.cols,
    ∑ ch ∈ Finset.range T.channels, T.data a b ch

/-- Modelled from the spec: sum of the scene samples in the template-sized
window whose top-left corner is at row `i`, column `j`. -/
def winSum (S T : ZMat) (i j : ℕ) : ℚ :=
  ∑ a ∈ Finset.range T.rows, ∑ b ∈ Finset.range T.cols,
    ∑ ch ∈ Finset.range T.channels, S.data (i + a) (j + b) ch

/-- Modelled from the spec: mean of the template samples. -/
def tMean (T : ZMat) : ℚ := tSum T / pixCount T

/-- Modelled from the spec: mean of the scene window at row `i`, column `j`. -/
def winMean (S T : ZMat) (i j : ℕ) : ℚ := winSum S T i j / pixCount T

/-- Modelled from the spec (§4.2): the `SQDIFF` score at offset row `i`,
column `j` — the sum over all window pixels and channels of the squared
difference between scene window and template. -/
def sqdiffScore (S T : ZMat) (i j : ℕ) : ℚ :=
  ∑ a ∈ Finset.range T.rows, ∑ b ∈ Finset.range T.cols,
    ∑ ch ∈ Finset.range T.channels,
      (S.data (i + a) (j + b) ch - T.data a b ch) ^ 2

/-- Modelled from the spec (§4.2): the `CCORR` score — the sum of pointwise
products of window and template samples. -/
def ccorrScore (S T : ZMat) (i j : ℕ) : ℚ :=
  ∑ a ∈ Finset.range T.rows, ∑ b ∈ Finset.range T.cols,
    ∑ ch ∈ Finset.range T.channels,
      S.data (i + a) (j + b) ch * T.data a b ch

/-- Modelled from the spec (§4.2): the `CCOEFF` score — the sum of pointwise
products of the mean-centred window and the mean-centred template. -/
def ccoeffScore (S T : ZMat) (i j : ℕ) : ℚ :=
  ∑ a ∈ Finset.range T.rows, ∑ b ∈ Finset.range T.cols,
    ∑ ch ∈ Finset.range T.channels,
      (S.data (i + a) (j + b) ch - winMean S T i j) * (T.data a b ch - tMean T)

/-- Modelled from the spec: the centred second moment of the scene window
(the left factor under the square root of the `CCOEFF_NORMED` denominator). -/
def winVar (S T : ZMat) (i j : ℕ) : ℚ :=
  ∑ a ∈ Finset.range T.rows, ∑ b ∈ Finset.range T.cols,
    ∑ ch ∈ Finset.range T.channels,
      (S.data (i + a) (j + b) ch - winMean S T i j) ^ 2

/-- Modelled from the spec: the centred second moment of the template
(the right factor under the square root of the `CCOEFF_NORMED` denominator). -/
def tVar (T : ZMat) : ℚ :=
  ∑ a ∈ Finset.range T.rows, ∑ b ∈ Finset.range T.cols,
    ∑ ch ∈ Finset.range T.channels,
      (T.data a b ch - tMean T) ^ 2

/-- Modelled from the spec (§4.2): the `CCOEFF_NORMED` score,
`CCOEFF / sqrt(Σ(W−mean W)² · Σ(t−mean t)²)`, with the spec's rule that a
numerically zero denominator yields score `0`. -/
noncomputable def ccoeffNormedScore (S T : ZMat) (i j : ℕ) : ℝ :=
  if winVar S T i j * tVar T = 0 then 0
  else (ccoeffScore S T i j : ℝ) / Real.sqrt ((winVar S T i j : ℝ) * (tVar T : ℝ))

/-- The template `T` is an exact sub-window of the scene `S` at offset
`(x, y)` — `x` the column offset, `y` the row offset, in scene pixel
coordinates — with compatible geometry. -/
def isSubwindowAt (S T : ZMat) (x y : ℕ) : Prop :=
  T.channels = S.channels ∧ T.depth = S.depth ∧
  x + T.cols ≤ S.cols ∧ y + T.rows ≤ S.rows ∧
  ∀ a < T.rows, ∀ b < T.cols, ∀ ch < T.channels,
    T.data a b ch = S.data (y + a) (x + b) ch

instance (S T : ZMat) (x y : ℕ) : Decidable (isSubwindowAt S T x y) := by
  unfold isSubwindowAt
  infer_instance

/-- Result record of the extremum locator, mirroring `ZikuliMinMaxResult`
(locations are `(row, column)` pairs). -/
structure MinMaxResult where
  minVal : ℚ
  maxVal : ℚ
  minLoc : ℕ × ℕ
  maxLoc : ℕ × ℕ
deriving DecidableEq

/-- Strict row-major order on `(row, column)` positions: smaller row first,
then smaller column. -/
def lexLT (p q : ℕ × ℕ) : Prop := p.1 < q.1 ∨ (p.1 = q.1 ∧ p.2 < q.2)

/-- Reflexive row-major order on `(row, column)` positions. -/
def lexLE (p q : ℕ × ℕ) : Prop := p.1 < q.1 ∨ (p.1 = q.1 ∧ p.2 ≤ q.2)

instance (p q : ℕ × ℕ) : Decidable (lexLT p q) := by
  unfold lexLT
  infer_instance

instance (p q : ℕ × ℕ) : Decidable (lexLE p q) := by
  unfold lexLE
  infer_instance

/-- All `(row, column)` positions of a `rows × cols` surface, in row-major
(top-to-bottom, left-to-right) scan order. -/
def scanPositions (rows cols : ℕ) : List (ℕ × ℕ) :=
  (List.range rows).flatMap fun i => (List.range cols).map fun j => (i, j)

/-- Modelled from the spec (§4.3): one step of the extremum scan — the
running minimum and maximum are replaced only on strict improvement, so the
first occurrence in scan order wins every tie. -/
def mmStep (f : ℕ × ℕ → ℚ) (acc : MinMaxResult) (p : ℕ × ℕ) : MinMaxResult :=
  { minVal := if f p < acc.minVal then f p else acc.minVal
    minLoc := if f p < acc.minVal then p else acc.minLoc
    maxVal := if acc.maxVal < f p then f p else acc.maxVal
    maxLoc := if acc.maxVal < f p then p else acc.maxLoc }

/-- Left fold of `mmStep` over a list of positions. -/
def mmFold (f : ℕ × ℕ → ℚ) : MinMaxResult → List (ℕ × ℕ) → MinMaxResult
  | acc, [] => acc
  | acc, p :: ps => mmFold f (mmStep f acc p) ps

/-- Modelled from the spec (§4.3): scan a `rows × cols` score surface once in
row-major order for its global minimum and maximum values and locations;
an empty surface is a failure (`none`). -/
def minMaxLoc (f : ℕ → ℕ → ℚ) (rows cols : ℕ) : Option MinMaxResult :=
  match scanPositions rows cols with
  | [] => none
  | p :: ps =>
    some (mmFold (fun q => f q.1 q.2)
      { minVal := f p.1 p.2, maxVal := f p.1 p.2, minLoc := p, maxLoc := p } ps)

/-- The store of allocated `ZikuliMat` objects.  An entry `some m` is a live
allocation, `none` a freed one; a handle is an index into the store (a
non-null pointer) or `none` (the null pointer). -/
abbrev Store := List (Option ZMat)

/-- A `ZikuliMatHandle`: null, or a pointer to a store slot. -/
abbrev Handle := Option ℕ

/-- Dereference a non-null pointer: `some m` when the slot is live, `none`
when it was freed (or never allocated) — touching it is undefined
behaviour. -/
def lookupLive (σ : Store) (i : ℕ) : Option ZMat := σ[i]?.join

/-- Embeds `zikuli_mat_create`.  The wrapper calls the `cv::Mat` constructor
under `try/catch` and returns null on any exception.  The constructor itself
is external; modelled from the spec: non-positive dimensions are an
`InvalidArgument` failure (§7), a successful construction is zero-initialized
(§4.1) with a contiguous stride. -/
def zikuli_mat_create (σ : Store) (rows cols : ℤ) (depth : ElemDepth)
    (channels : ℕ) : Handle × Store :=
  if rows ≤ 0 ∨ cols ≤ 0 then (none, σ)
  else
    (some σ.length,
      σ ++ [some
        { rows := rows.toNat, cols := cols.toNat, channels := channels,
          depth := depth, stride := cols.toNat * channels * elemSize depth,
          data := fun _ _ _ => 0 }])

/-- Embeds `zikuli_mat_create_with_data`.  The wrapper wraps the caller's
pixels in a temporary header and clones it (defensive copy) under
`try/catch`.  Modelled from the spec for the external parts: non-positive
dimensions or a row stride smaller than a packed row are an
`InvalidArgument` failure (§3, §7); the clone owns a contiguous copy of the
caller's samples. -/
def zikuli_mat_create_with_data (σ : Store) (rows cols : ℤ) (depth : ElemDepth)
    (channels : ℕ) (data : ℕ → ℕ → ℕ → ℚ) (step : ℤ) : Handle × Store :=
  if rows ≤ 0 ∨ cols ≤ 0 ∨ step < cols * (channels : ℤ) * (elemSize depth : ℤ) then
    (none, σ)
  else
    (some σ.length,
      σ ++ [some
        { rows := rows.toNat, cols := cols.toNat, channels := channels,
          depth := depth, stride := cols.toNat * channels * elemSize depth,
          data := data }])

/-- Embeds `zikuli_mat_release`: a null handle is ignored; `delete` on a live
handle frees its slot; `delete` on an already-freed (dangling) handle is
undefined behaviour, modelled as the `none` outcome. -/
def zikuli_mat_release (σ : Store) (h : Handle) : Option Store :=
  match h with
  | none => some σ
  | some i =>
    match lookupLive σ i with
    | some _ => some (σ.set i none)
    | none => none

/-- Embeds `zikuli_mat_rows`: `0` for a null handle, the row count for a live
handle; dereferencing a dangling handle is undefined behaviour (`none`). -/
def zikuli_mat_rows (σ : Store) (h : Handle) : Option ℤ :=
  match h with
  | none => some 0
  | some i => (lookupLive σ i).map fun m => (m.rows : ℤ)

/-- Embeds `zikuli_mat_cols` (see `zikuli_mat_rows`). -/
def zikuli_mat_cols (σ : Store) (h : Handle) : Option ℤ :=
  match h with
  | none => some 0
  | some i => (lookupLive σ i).map fun m => (m.cols : ℤ)

/-- Embeds `zikuli_mat_step` (see `zikuli_mat_rows`): the row stride in
bytes, `0` for a null handle. -/
def zikuli_mat_step (σ : Store) (h : Handle) : Option ℤ :=
  match h with
  | none => some 0
  | some i => (lookupLive σ i).map fun m => (m.stride : ℤ)

/-- Embeds `zikuli_mat_data`: the inner option is the returned pointer —
`none` is the null pointer (returned for a null handle), `some` carries the
pointed-to sample array of a live handle.  Dereferencing a dangling handle
is undefined behaviour (outer `none`). -/
def zikuli_mat_data (σ : Store) (h : Handle) : Option (Option (ℕ → ℕ → ℕ → ℚ)) :=
  match h with
  | none => some none
  | some i => (lookupLive σ i).map fun m => some m.data

/-- Modelled from the spec (§4.2): preconditions of the correlation engine —
template no larger than the scene, equal channel count and element type. -/
def matchPrecondOK (S T : ZMat) : Prop :=
  T.rows ≤ S.rows ∧ T.cols ≤ S.cols ∧ T.channels = S.channels ∧ T.depth = S.depth

instance (S T : ZMat) : Decidable (matchPrecondOK S T) := by
  unfold matchPrecondOK
  infer_instance

/-- Embeds `zikuli_match_template`.  The wrapper's null checks and catch-all
error code are from the source; the engine it calls is external, so it is
abstracted as a parameter `engine` producing the score surface, and —
modelled from the spec (§4.2, §7) — a precondition violation makes the
engine throw before writing anything, which the wrapper turns into `-1`.
Dereferencing a dangling handle is undefined behaviour (`none`). -/
def zikuli_match_template (engine : MatchMethod → ZMat → ZMat → ZMat)
    (σ : Store) (image templ result : Handle) (method : MatchMethod) :
    Option (ℤ × Store) :=
  match image, templ, result with
  | none, _, _ => some (-1, σ)
  | _, none, _ => some (-1, σ)
  | _, _, none => some (-1, σ)
  | some i, some t, some r =>
    match lookupLive σ i, lookupLive σ t, lookupLive σ r with
    | some S, some T, some _ =>
      if matchPrecondOK S T then some (0, σ.set r (some (engine method S T)))
      else some (-1, σ)
    | _, _, _ => none

/-- Modelled from the spec (§3): the score surface of one (scene, template)
pair for the `SQDIFF` method — a single-channel floating-point buffer of
dimensions `(sceneRows − templRows + 1, sceneCols − templCols + 1)`.  Used
as a concrete engine instance. -/
def sqdiffSurface (S T : ZMat) : ZMat :=
  { rows := S.rows - T.rows + 1, cols := S.cols - T.cols + 1, channels := 1,
    depth := .f32, stride := (S.cols - T.cols + 1) * 4,
    data := fun i j _ => sqdiffScore S T i j }

/-- Largest value of a C `int32_t`. -/
def int32Max : ℤ := 2 ^ 31 - 1

/-- Two's-complement reduction of an integer into the int32 range: the value
the compiled program's 32-bit signed addition produces, including on
overflow (where the C abstract machine has undefined behaviour, realised as
wrap-around by mainstream compilers). -/
def wrap32 (z : ℤ) : ℤ := (z + 2 ^ 31) % 2 ^ 32 - 2 ^ 31

/-- The region update performed by a successful `setRegion`: every sample
whose pixel lies in the rectangle, across all channels, becomes `v`; every
other sample keeps its value. -/
def setRegionData (m : ZMat) (x y w h : ℤ) (v : ℚ) : ℕ → ℕ → ℕ → ℚ :=
  fun r c ch =>
    if y ≤ (r : ℤ) ∧ (r : ℤ) < y + h ∧ x ≤ (c : ℤ) ∧ (c : ℤ) < x + w then v
    else m.data r c ch

/-- Embeds `zikuli_mat_set_region`: the null check and the explicit bounds
checks are from the source; the `setTo` of the region (external) is modelled
from the spec (§4.1) as `setRegionData`.  The source computes `x + width`
and `y + height` in 32-bit signed arithmetic, so the sums are reduced by
`wrap32`: an overflowing sum wraps negative, slips past the check, and the
call falls through to `setTo` (see the C3 code-bug theorem).  Dereferencing
a dangling handle is undefined behaviour (`none`). -/
def zikuli_mat_set_region (σ : Store) (hm : Handle) (x y w h : ℤ) (v : ℚ) :
    Option (ℤ × Store) :=
  match hm with
  | none => some (-1, σ)
  | some i =>
    match lookupLive σ i with
    | none => none
    | some m =>
      if x < 0 ∨ y < 0 ∨ w ≤ 0 ∨ h ≤ 0 then some (-1, σ)
      else if wrap32 (x + w) > (m.cols : ℤ) ∨ wrap32 (y + h) > (m.rows : ℤ) then
        some (-1, σ)
      else some (0, σ.set i (some { m with data := setRegionData m x y w h v }))

/-- Modelled from the spec (§4.4): whether the method treats lower scores as
better matches. -/
def methodMinimizes : MatchMethod → Bool
  | .SQDIFF => true
  | .SQDIFF_NORMED => true
  | _ => false

/-- Modelled from the spec (§4.4): the threshold test for the method's
polarity — `≤ threshold` when minimizing, `≥ threshold` when maximizing. -/
def passesThreshold (minimize : Bool) (thr v : ℚ) : Bool :=
  if minimize then decide (v ≤ thr) else decide (thr ≤ v)

/-- Modelled from the spec (§4.4): suppress the template-sized rectangle
anchored at the accepted location — suppressed cells (`none`) can never be
selected again.  Clamping to the surface bounds is inherent: cells outside
the surface are never scanned. -/
def suppressRect (W : ℕ → ℕ → Option ℚ) (loc : ℕ × ℕ) (tr tc : ℕ) :
    ℕ → ℕ → Option ℚ :=
  fun r c =>
    if loc.1 ≤ r ∧ r < loc.1 + tr ∧ loc.2 ≤ c ∧ c < loc.2 + tc then none
    else W r c

/-- Whether candidate score `v` is strictly better than `w` under the given
polarity. -/
def betterScore (minimize : Bool) (v w : ℚ) : Bool :=
  if minimize then decide (v < w) else decide (w < v)

/-- Modelled from the spec (§4.4): the extremum of the working surface —
the best non-suppressed cell in row-major scan order (first occurrence wins
ties), or `none` when the entire surface has been suppressed. -/
def bestCand (minimize : Bool) (W : ℕ → ℕ → Option ℚ) (rows cols : ℕ) :
    Option ((ℕ × ℕ) × ℚ) :=
  (scanPositions rows cols).foldl
    (fun acc p =>
      match W p.1 p.2 with
      | none => acc
      | some v =>
        match acc with
        | none => some (p, v)
        | some (_, w) => if betterScore minimize v w then some (p, v) else acc)
    none

/-- Modelled from the spec (§4.4): the suppressor loop.  Each iteration
locates the best remaining candidate; if it passes the threshold it is
emitted and its template-sized rectangle suppressed, otherwise the loop is
done.  The first argument is the remaining match budget. -/
def findMatchesAux (minimize : Bool) (thr : ℚ) (tr tc rows cols : ℕ) :
    ℕ → (ℕ → ℕ → Option ℚ) → List ((ℕ × ℕ) × ℚ)
  | 0, _ => []
  | Nat.succ n, W =>
    match bestCand minimize W rows cols with
    | none => []
    | some (p, v) =>
      if passesThreshold minimize thr v then
        (p, v) :: findMatchesAux minimize thr tr tc rows cols n (suppressRect W p tr tc)
      else []

/-- Modelled from the spec (§4.4, §6): `findMatches` — the suppressor's
public entry point, run on a working copy `W` of the score surface with the
polarity of the selected method and a mandatory match cap. -/
def findMatches (method : MatchMethod) (thr : ℚ) (maxMatches : ℕ)
    (tr tc rows cols : ℕ) (W : ℕ → ℕ → Option ℚ) : List ((ℕ × ℕ) × ℚ) :=
  findMatchesAux (methodMinimizes method) thr tr tc rows cols maxMatches W

/-- A concrete 1×2 single-channel scene whose samples are all `0`. -/
def flatScene : ZMat :=
  { rows := 1, cols := 2, channels := 1, depth := .u8, stride := 2,
    data := fun _ _ _ => 0 }

/-- A concrete 1×1 single-channel template whose sample is `0` — a flat
(constant) template, equal to the sub-window of `flatScene` at any offset. -/
def flatTempl : ZMat :=
  { rows := 1, cols := 1, channels := 1, depth := .u8, stride := 1,
    data := fun _ _ _ => 0 }

/-- A concrete non-constant 1×2 single-channel image with samples `0, 1`;
used both as a scene and as its own template at offset `(0, 0)`. -/
def rampMat : ZMat :=
  { rows := 1, cols := 2, channels := 1, depth := .u8, stride := 2,
    data := fun _ j _ => if j = 1 then 1 else 0 }

/-- A concrete 1×1 buffer used to populate example stores. -/
def exampleMat : ZMat :=
  { rows := 1, cols := 1, channels := 1, depth := .u8, stride := 1,
    data := fun _ _ _ => 7 }

/-- A concrete 2×2 score surface with two cells tied at the maximum `5`
(at `(0,1)` and `(1,0)`) and two cells tied at the minimum `0`
(at `(0,0)` and `(1,1)`). -/
def tieSurface : ℕ → ℕ → ℚ :=
  fun i j => if (i = 0 ∧ j = 1) ∨ (i = 1 ∧ j = 0) then 5 else 0

/-- The expected extremum-scan result on `tieSurface`: both tie-breaks pick
the row-major-first cell. -/
def tieResult : MinMaxResult :=
  { minVal := 0, maxVal := 5, minLoc := (0, 0), maxLoc := (0, 1) }

/-- A concrete 2×2 buffer, strictly larger than `exampleMat` in both
dimensions (violates the template-no-larger-than-scene precondition when
used as a template against `exampleMat`). -/
def bigMat : ZMat :=
  { rows := 2, cols := 2, channels := 1, depth := .u8, stride := 2,
    data := fun _ _ _ => 0 }

/-- A concrete store with three live 1×1 buffers. -/
def exStore3 : Store := [some exampleMat, some exampleMat, some exampleMat]

/-- The buffer produced by `zikuli_mat_create` on a 1×1 request. -/
def cBuf : ZMat :=
  { rows := 1, cols := 1, channels := 1, depth := .u8, stride := 1,
    data := fun _ _ _ => 0 }

/-- The buffer produced by `zikuli_mat_create_with_data` on a 1×1 request
with constant caller data `3`. -/
def dBuf : ZMat :=
  { rows := 1, cols := 1, channels := 1, depth := .u8, stride := 1,
    data := fun _ _ _ => 3 }

/-- A concrete 1×1 working surface with a single live cell of score `0`. -/
def oneCellSurface : ℕ → ℕ → Option ℚ :=
  fun i j => if i = 0 ∧ j = 0 then some 0 else none

/-- A concrete 1×1 working surface whose single live cell scores `1`
(fails a minimizing threshold of `0`). -/
def oneCellFailSurface : ℕ → ℕ → Option ℚ :=
  fun i j => if i = 0 ∧ j = 0 then some 1 else none

/-- A fully suppressed working surface. -/
def emptySurface : ℕ → ℕ → Option ℚ := fun _ _ => none

lemma subwindow_data {S T : ZMat} {x y : ℕ} (h : isSubwindowAt S T x y)
    {a b ch : ℕ} (ha : a < T.rows) (hb : b < T.cols) (hch : ch < T.channels) :
    T.data a b ch = S.data (y + a) (x + b) ch :=
  h.2.2.2.2 a ha b hb ch hch

lemma subwindow_winSum {S T : ZMat} {x y : ℕ} (h : isSubwindowAt S T x y) :
    winSum S T y x = tSum T := by
  unfold winSum tSum
  refine Finset.sum_congr rfl fun a ha => Finset.sum_congr rfl fun b hb =>
    Finset.sum_congr rfl fun ch hch => ?_
  exact (subwindow_data h (Finset.mem_range.mp ha) (Finset.mem_range.mp hb)
    (Finset.mem_range.mp hch)).symm

lemma subwindow_winMean {S T : ZMat} {x y : ℕ} (h : isSubwindowAt S T x y) :
    winMean S T y x = tMean T := by
  unfold winMean tMean
  rw [subwindow_winSum h]

lemma subwindow_ccoeff {S T : ZMat} {x y : ℕ} (h : isSubwindowAt S T x y) :
    ccoeffScore S T y x = tVar T := by
  unfold ccoeffScore tVar
  refine Finset.sum_congr rfl fun a ha => Finset.sum_congr rfl fun b hb =>
    Finset.sum_congr rfl fun ch hch => ?_
  rw [subwindow_winMean h,
    subwindow_data h (Finset.mem_range.mp ha) (Finset.mem_range.mp hb)
      (Finset.mem_range.mp hch), sq]

lemma subwindow_winVar {S T : ZMat} {x y : ℕ} (h : isSubwindowAt S T x y) :
    winVar S T y x = tVar T := by
  unfold winVar tVar
  refine Finset.sum_congr rfl fun a ha => Finset.sum_congr rfl fun b hb =>
    Finset.sum_congr rfl fun ch hch => ?_
  rw [subwindow_winMean h,
    subwindow_data h (Finset.mem_range.mp ha) (Finset.mem_range.mp hb)
      (Finset.mem_range.mp hch)]

lemma sqdiffScore_nonneg (S T : ZMat) (i j : ℕ) : 0 ≤ sqdiffScore S T i j := by
  unfold sqdiffScore
  refine Finset.sum_nonneg fun a _ => Finset.sum_nonneg fun b _ =>
    Finset.sum_nonneg fun ch _ => sq_nonneg _

lemma winVar_nonneg (S T : ZMat) (i j : ℕ) : 0 ≤ winVar S T i j := by
  unfold winVar
  refine Finset.sum_nonneg fun a _ => Finset.sum_nonneg fun b _ =>
    Finset.sum_nonneg fun ch _ => sq_nonneg _

lemma tVar_nonneg (T : ZMat) : 0 ≤ tVar T := by
  unfold tVar
  refine Finset.sum_nonneg fun a _ => Finset.sum_nonneg fun b _ =>
    Finset.sum_nonneg fun ch _ => sq_nonneg _

lemma subwindow_sqdiff {S T : ZMat} {x y : ℕ} (h : isSubwindowAt S T x y) :
    sqdiffScore S T y x = 0 := by
  unfold sqdiffScore
  refine Finset.sum_eq_zero fun a ha => Finset.sum_eq_zero fun b hb =>
    Finset.sum_eq_zero fun ch hch => ?_
  rw [← subwindow_data h (Finset.mem_range.mp ha) (Finset.mem_range.mp hb)
    (Finset.mem_range.mp hch)]
  ring

lemma triple_sum_as_product (g : ℕ → ℕ → ℕ → ℚ) (R C K : ℕ) :
    ∑ p ∈ (Finset.range R ×ˢ Finset.range C) ×ˢ Finset.range K, g p.1.1 p.1.2 p.2
      = ∑ a ∈ Finset.range R, ∑ b ∈ Finset.range C, ∑ ch ∈ Finset.range K, g a b ch := by
  rw [Finset.sum_product, Finset.sum_product]

lemma ccoeff_sq_le (S T : ZMat) (i j : ℕ) :
    ccoeffScore S T i j ^ 2 ≤ winVar S T i j * tVar T := by
  have hc : ccoeffScore S T i j
      = ∑ p ∈ (Finset.range T.rows ×ˢ Finset.range T.cols) ×ˢ Finset.range T.channels,
          (S.data (i + p.1.1) (j + p.1.2) p.2 - winMean S T i j)
            * (T.data p.1.1 p.1.2 p.2 - tMean T) :=
    (triple_sum_as_product _ _ _ _).symm
  have hw : winVar S T i j
      = ∑ p ∈ (Finset.range T.rows ×ˢ Finset.range T.cols) ×ˢ Finset.range T.channels,
          (S.data (i + p.1.1) (j + p.1.2) p.2 - winMean S T i j) ^ 2 :=
    (triple_sum_as_product _ _ _ _).symm
  have ht : tVar T
      = ∑ p ∈ (Finset.range T.rows ×ˢ Finset.range T.cols) ×ˢ Finset.range T.channels,
          (T.data p.1.1 p.1.2 p.2 - tMean T) ^ 2 :=
    (triple_sum_as_product _ _ _ _).symm
  rw [hc, hw, ht]
  exact Finset.sum_mul_sq_le_sq_mul_sq _ _ _

lemma ccoeffNormed_le_one (S T : ZMat) (i j : ℕ) : ccoeffNormedScore S T i j ≤ 1 := by
  unfold ccoeffNormedScore
  split_ifs with h
  · norm_num
  · have hw : (0 : ℝ) ≤ (winVar S T i j : ℚ) := by exact_mod_cast winVar_nonneg S T i j
    have ht : (0 : ℝ) ≤ (tVar T : ℚ) := by exact_mod_cast tVar_nonneg T
    have hne : ((winVar S T i j : ℝ)) * (tVar T : ℝ) ≠ 0 := by
      intro hz
      exact h (by exact_mod_cast hz)
    have hd : (0 : ℝ) < (winVar S T i j : ℝ) * (tVar T : ℝ) :=
      lt_of_le_of_ne (mul_nonneg hw ht) (Ne.symm hne)
    rw [div_le_one (Real.sqrt_pos.mpr hd)]
    calc (ccoeffScore S T i j : ℝ) ≤ |(ccoeffScore S T i j : ℝ)| := le_abs_self _
      _ = Real.sqrt ((ccoeffScore S T i j : ℝ) ^ 2) := (Real.sqrt_sq_eq_abs _).symm
      _ ≤ Real.sqrt ((winVar S T i j : ℝ) * (tVar T : ℝ)) := by
          refine Real.sqrt_le_sqrt ?_
          exact_mod_cast ccoeff_sq_le S T i j

lemma subwindow_ccoeffNormed {S T : ZMat} {x y : ℕ} (h : isSubwindowAt S T x y)
    (hvar : tVar T ≠ 0) : ccoeffNormedScore S T y x = 1 := by
  unfold ccoeffNormedScore
  rw [subwindow_ccoeff h, subwindow_winVar h, if_neg (mul_ne_zero hvar hvar)]
  have htc : ((tVar T : ℚ) : ℝ) ≠ 0 := by exact_mod_cast hvar
  have htn : (0 : ℝ) ≤ (tVar T : ℚ) := by exact_mod_cast tVar_nonneg T
  rw [Real.sqrt_mul_self htn, div_self htc]

/-- Claim C1 (amended).  For every scene `S` and template `T` that is an
exact sub-window of `S` at offset `(x, y)`: the `SQDIFF` surface is `0` at
`(x, y)` and nonnegative everywhere, so its global minimum `0` is located at
`(x, y)`; and — provided the template is not constant (`tVar T ≠ 0`) — the
`CCOEFF_NORMED` surface is `1` at `(x, y)` and at most `1` everywhere, so
its global maximum `1` is located at `(x, y)`. -/
theorem C1_exact_subwindow_extrema (S T : ZMat) (x y : ℕ)
    (hsub : isSubwindowAt S T x y) :
    (sqdiffScore S T y x = 0 ∧ ∀ i j : ℕ, 0 ≤ sqdiffScore S T i j) ∧
    (tVar T ≠ 0 →
      ccoeffNormedScore S T y x = 1 ∧ ∀ i j : ℕ, ccoeffNormedScore S T i j ≤ 1) :=
  ⟨⟨subwindow_sqdiff hsub, fun i j => sqdiffScore_nonneg S T i j⟩,
    fun hv => ⟨subwindow_ccoeffNormed hsub hv, fun i j => ccoeffNormed_le_one S T i j⟩⟩

/-- Claim C1 counterexample.  `flatTempl` is an exact sub-window of
`flatScene` at offset `(x, y) = (1, 0)`, but the `CCOEFF_NORMED` surface
(which is 1×2: exactly the two cells shown) is `0` everywhere — a flat
template makes every denominator zero, so no cell, in particular not
`(1, 0)`, carries the claimed global-maximum score `≈ 1.0`. -/
theorem C1_counterexample :
    isSubwindowAt flatScene flatTempl 1 0 ∧
    ccoeffNormedScore flatScene flatTempl 0 0 = 0 ∧
    ccoeffNormedScore flatScene flatTempl 0 1 = 0 ∧
    (0 : ℝ) ≠ 1 := by
  have ht : tVar flatTempl = 0 := by
    norm_num [tVar, tMean, tSum, pixCount, flatTempl]
  refine ⟨by decide, ?_, ?_, by norm_num⟩ <;>
    · unfold ccoeffNormedScore
      rw [ht, mul_zero, if_pos rfl]

/-- Claim C1 witness: the non-constant template `rampMat` is an exact
sub-window of itself at `(0, 0)`, where the `SQDIFF` score is `0` and the
`CCOEFF_NORMED` score is `1`. -/
theorem C1_witness :
    isSubwindowAt rampMat rampMat 0 0 ∧ tVar rampMat ≠ 0 ∧
    sqdiffScore rampMat rampMat 0 0 = 0 ∧
    ccoeffNormedScore rampMat rampMat 0 0 = 1 := by
  have hs : isSubwindowAt rampMat rampMat 0 0 := by decide
  have hv : tVar rampMat ≠ 0 := by
    norm_num [tVar, tMean, tSum, pixCount, rampMat, Finset.sum_range_succ]
  exact ⟨hs, hv, (C1_exact_subwindow_extrema rampMat rampMat 0 0 hs).1.1,
    ((C1_exact_subwindow_extrema rampMat rampMat 0 0 hs).2 hv).1⟩

lemma lexLE_refl (p : ℕ × ℕ) : lexLE p p := Or.inr ⟨rfl, le_refl _⟩

lemma lexLT_imp_lexLE {p q : ℕ × ℕ} (h : lexLT p q) : lexLE p q :=
  h.imp id fun hh => ⟨hh.1, le_of_lt hh.2⟩

lemma mem_scanPositions {rows cols : ℕ} {p : ℕ × ℕ} :
    p ∈ scanPositions rows cols ↔ p.1 < rows ∧ p.2 < cols := by
  unfold scanPositions
  constructor
  · intro hp
    rcases List.mem_flatMap.mp hp with ⟨i, hi, hmem⟩
    rcases List.mem_map.mp hmem with ⟨j, hj, rfl⟩
    exact ⟨List.mem_range.mp hi, List.mem_range.mp hj⟩
  · intro hp
    refine List.mem_flatMap.mpr ⟨p.1, List.mem_range.mpr hp.1, ?_⟩
    exact List.mem_map.mpr ⟨p.2, List.mem_range.mpr hp.2, Prod.mk.eta⟩

lemma scanPositions_succ (rows cols : ℕ) :
    scanPositions (rows + 1) cols
      = scanPositions rows cols ++ (List.range cols).map fun j => (rows, j) := by
  unfold scanPositions
  rw [List.range_succ, List.flatMap_append]
  simp

lemma scanPositions_pairwise (rows cols : ℕ) :
    (scanPositions rows cols).Pairwise lexLT := by
  induction rows with
  | zero => simp [scanPositions]
  | succ n ih =>
    rw [scanPositions_succ]
    refine List.pairwise_append.mpr ⟨ih, ?_, ?_⟩
    · refine List.pairwise_map.mpr ?_
      refine List.Pairwise.imp ?_ (List.pairwise_lt_range cols)
      intro a b hab
      exact Or.inr ⟨rfl, hab⟩
    · intro a ha b hb
      rcases List.mem_map.mp hb with ⟨j, _, rfl⟩
      exact Or.inl (mem_scanPositions.mp ha).1

lemma mmStep_max (f : ℕ × ℕ → ℚ) (acc : MinMaxResult) (p : ℕ × ℕ) :
    ((mmStep f acc p).maxVal = acc.maxVal ∧ (mmStep f acc p).maxLoc = acc.maxLoc
        ∧ f p ≤ acc.maxVal)
    ∨ ((mmStep f acc p).maxVal = f p ∧ (mmStep f acc p).maxLoc = p
        ∧ acc.maxVal < f p) := by
  unfold mmStep
  by_cases h : acc.maxVal < f p
  · exact Or.inr ⟨by simp [h], by simp [h], h⟩
  · exact Or.inl ⟨by simp [h], by simp [h], le_of_not_lt h⟩

lemma mmStep_min (f : ℕ × ℕ → ℚ) (acc : MinMaxResult) (p : ℕ × ℕ) :
    ((mmStep f acc p).minVal = acc.minVal ∧ (mmStep f acc p).minLoc = acc.minLoc
        ∧ acc.minVal ≤ f p)
    ∨ ((mmStep f acc p).minVal = f p ∧ (mmStep f acc p).minLoc = p
        ∧ f p < acc.minVal) := by
  unfold mmStep
  by_cases h : f p < acc.minVal
  · exact Or.inr ⟨by simp [h], by simp [h], h⟩
  · exact Or.inl ⟨by simp [h], by simp [h], le_of_not_lt h⟩

lemma mmFold_max_spec (f : ℕ × ℕ → ℚ) (l : List (ℕ × ℕ)) :
    ∀ acc : MinMaxResult,
      f acc.maxLoc = acc.maxVal →
      (∀ p ∈ l, lexLT acc.maxLoc p) →
      l.Pairwise lexLT →
      f (mmFold f acc l).maxLoc = (mmFold f acc l).maxVal
        ∧ acc.maxVal ≤ (mmFold f acc l).maxVal
        ∧ (∀ p ∈ l, f p ≤ (mmFold f acc l).maxVal)
        ∧ ((mmFold f acc l).maxLoc = acc.maxLoc ∨ (mmFold f acc l).maxLoc ∈ l)
        ∧ ((mmFold f acc l).maxVal = acc.maxVal → (mmFold f acc l).maxLoc = acc.maxLoc)
        ∧ (∀ p ∈ l, f p = (mmFold f acc l).maxVal → lexLE (mmFold f acc l).maxLoc p) := by
  induction l with
  | nil =>
    intro acc hval _ _
    exact ⟨hval, le_refl _, fun p hp => absurd hp (List.not_mem_nil p), Or.inl rfl,
      fun _ => rfl, fun p hp => absurd hp (List.not_mem_nil p)⟩
  | cons q l' ih =>
    intro acc hval hord hpw
    have hq : lexLT acc.maxLoc q := hord q (List.mem_cons_self q l')
    have hqord : ∀ p ∈ l', lexLT q p := (List.pairwise_cons.mp hpw).1
    have hpwtail : l'.Pairwise lexLT := (List.pairwise_cons.mp hpw).2
    simp only [mmFold]
    rcases mmStep_max f acc q with ⟨e1, e2, hle⟩ | ⟨e1, e2, hlt⟩
    · obtain ⟨i1, i2, i3, i4, i5, i6⟩ :=
        ih (mmStep f acc q) (by rw [e1, e2]; exact hval)
          (by rw [e2]; exact fun p hp => hord p (List.mem_cons_of_mem q hp)) hpwtail
      rw [e1] at i2 i5
      rw [e2] at i4 i5
      refine ⟨i1, i2, ?_, ?_, i5, ?_⟩
      · intro p hp
        rcases List.mem_cons.mp hp with rfl | hp'
        · exact le_trans hle i2
        · exact i3 p hp'
      · rcases i4 with h | h
        · exact Or.inl h
        · exact Or.inr (List.mem_cons_of_mem q h)
      · intro p hp hfp
        rcases List.mem_cons.mp hp with rfl | hp'
        · rw [i5 (le_antisymm (hfp ▸ hle) i2)]
          exact lexLT_imp_lexLE hq
        · exact i6 p hp' hfp
    · obtain ⟨i1, i2, i3, i4, i5, i6⟩ :=
        ih (mmStep f acc q) (by rw [e1, e2]) (by rw [e2]; exact hqord) hpwtail
      rw [e1] at i2 i5
      rw [e2] at i4 i5
      refine ⟨i1, le_trans (le_of_lt hlt) i2, ?_, ?_, ?_, ?_⟩
      · intro p hp
        rcases List.mem_cons.mp hp with rfl | hp'
        · exact i2
        · exact i3 p hp'
      · rcases i4 with h | h
        · exact Or.inr (by rw [h]; exact List.mem_cons_self q l')
        · exact Or.inr (List.mem_cons_of_mem q h)
      · intro hvq
        exact absurd (lt_of_lt_of_le hlt i2) (by rw [hvq]; exact lt_irrefl _)
      · intro p hp hfp
        rcases List.mem_cons.mp hp with rfl | hp'
        · rw [i5 hfp.symm]
          exact lexLE_refl p
        · exact i6 p hp' hfp

lemma mmFold_min_spec (f : ℕ × ℕ → ℚ) (l : List (ℕ × ℕ)) :
    ∀ acc : MinMaxResult,
      f acc.minLoc = acc.minVal →
      (∀ p ∈ l, lexLT acc.minLoc p) →
      l.Pairwise lexLT →
      f (mmFold f acc l).minLoc = (mmFold f acc l).minVal
        ∧ (mmFold f acc l).minVal ≤ acc.minVal
        ∧ (∀ p ∈ l, (mmFold f acc l).minVal ≤ f p)
        ∧ ((mmFold f acc l).minLoc = acc.minLoc ∨ (mmFold f acc l).minLoc ∈ l)
        ∧ ((mmFold f acc l).minVal = acc.minVal → (mmFold f acc l).minLoc = acc.minLoc)
        ∧ (∀ p ∈ l, f p = (mmFold f acc l).minVal → lexLE (mmFold f acc l).minLoc p) := by
  induction l with
  | nil =>
    intro acc hval _ _
    exact ⟨hval, le_refl _, fun p hp => absurd hp (List.not_mem_nil p), Or.inl rfl,
      fun _ => rfl, fun p hp => absurd hp (List.not_mem_nil p)⟩
  | cons q l' ih =>
    intro acc hval hord hpw
    have hq : lexLT acc.minLoc q := hord q (List.mem_cons_self q l')
    have hqord : ∀ p ∈ l', lexLT q p := (List.pairwise_cons.mp hpw).1
    have hpwtail : l'.Pairwise lexLT := (List.pairwise_cons.mp hpw).2
    simp only [mmFold]
    rcases mmStep_min f acc q with ⟨e1, e2, hle⟩ | ⟨e1, e2, hlt⟩
    · obtain ⟨i1, i2, i3, i4, i5, i6⟩ :=
        ih (mmStep f acc q) (by rw [e1, e2]; exact hval)
          (by rw [e2]; exact fun p hp => hord p (List.mem_cons_of_mem q hp)) hpwtail
      rw [e1] at i2 i5
      rw [e2] at i4 i5
      refine ⟨i1, i2, ?_, ?_, i5, ?_⟩
      · intro p hp
        rcases List.mem_cons.mp hp with rfl | hp'
        · exact le_trans i2 hle
        · exact i3 p hp'
      · rcases i4 with h | h
        · exact Or.inl h
        · exact Or.inr (List.mem_cons_of_mem q h)
      · intro p hp hfp
        rcases List.mem_cons.mp hp with rfl | hp'
        · rw [i5 (le_antisymm i2 (hfp ▸ hle))]
          exact lexLT_imp_lexLE hq
        · exact i6 p hp' hfp
    · obtain ⟨i1, i2, i3, i4, i5, i6⟩ :=
        ih (mmStep f acc q) (by rw [e1, e2]) (by rw [e2]; exact hqord) hpwtail
      rw [e1] at i2 i5
      rw [e2] at i4 i5
      refine ⟨i1, le_trans i2 (le_of_lt hlt), ?_, ?_, ?_, ?_⟩
      · intro p hp
        rcases List.mem_cons.mp hp with rfl | hp'
        · exact i2
        · exact i3 p hp'
      · rcases i4 with h | h
        · exact Or.inr (by rw [h]; exact List.mem_cons_self q l')
        · exact Or.inr (List.mem_cons_of_mem q h)
      · intro hvq
        exact absurd (lt_of_le_of_lt i2 hlt) (by rw [hvq]; exact lt_irrefl _)
      · intro p hp hfp
        rcases List.mem_cons.mp hp with rfl | hp'
        · rw [i5 hfp.symm]
          exact lexLE_refl p
        · exact i6 p hp' hfp

/-- Claim C2.  For every score surface, `minMaxLoc` returns a `maxLoc`
(resp. `minLoc`) that attains the global maximum (resp. minimum) and is
row-major-first among all cells attaining it: every other cell sharing the
extreme value has a larger row, or the same row and a column no smaller.
Determinism is inherent: `minMaxLoc` is a function of the surface. -/
theorem C2_minMaxLoc_first_occurrence (f : ℕ → ℕ → ℚ) (rows cols : ℕ)
    (r : MinMaxResult) (hsome : minMaxLoc f rows cols = some r) :
    (r.maxLoc.1 < rows ∧ r.maxLoc.2 < cols
      ∧ f r.maxLoc.1 r.maxLoc.2 = r.maxVal
      ∧ (∀ i j, i < rows → j < cols → f i j ≤ r.maxVal)
      ∧ (∀ i j, i < rows → j < cols → f i j = r.maxVal → lexLE r.maxLoc (i, j)))
    ∧ (r.minLoc.1 < rows ∧ r.minLoc.2 < cols
      ∧ f r.minLoc.1 r.minLoc.2 = r.minVal
      ∧ (∀ i j, i < rows → j < cols → r.minVal ≤ f i j)
      ∧ (∀ i j, i < rows → j < cols → f i j = r.minVal → lexLE r.minLoc (i, j))) := by
  unfold minMaxLoc at hsome
  cases hscan : scanPositions rows cols with
  | nil => rw [hscan] at hsome; cases hsome
  | cons p ps =>
    rw [hscan] at hsome
    have hr : mmFold (fun q => f q.1 q.2) ⟨f p.1 p.2, f p.1 p.2, p, p⟩ ps = r :=
      Option.some.inj hsome
    have hpw : (p :: ps).Pairwise lexLT := by
      rw [← hscan]; exact scanPositions_pairwise rows cols
    have hpord : ∀ x ∈ ps, lexLT p x := (List.pairwise_cons.mp hpw).1
    have hpwt : ps.Pairwise lexLT := (List.pairwise_cons.mp hpw).2
    obtain ⟨m1, m2, m3, m4, m5, m6⟩ :=
      mmFold_max_spec (fun q => f q.1 q.2) ps ⟨f p.1 p.2, f p.1 p.2, p, p⟩
        rfl hpord hpwt
    obtain ⟨n1, n2, n3, n4, n5, n6⟩ :=
      mmFold_min_spec (fun q => f q.1 q.2) ps ⟨f p.1 p.2, f p.1 p.2, p, p⟩
        rfl hpord hpwt
    rw [hr] at m1 m2 m3 m4 m5 m6 n1 n2 n3 n4 n5 n6
    have hmaxmem : r.maxLoc ∈ scanPositions rows cols := by
      rw [hscan]
      rcases m4 with h | h
      · rw [h]; exact List.mem_cons_self p ps
      · exact List.mem_cons_of_mem p h
    have hminmem : r.minLoc ∈ scanPositions rows cols := by
      rw [hscan]
      rcases n4 with h | h
      · rw [h]; exact List.mem_cons_self p ps
      · exact List.mem_cons_of_mem p h
    refine ⟨⟨(mem_scanPositions.mp hmaxmem).1, (mem_scanPositions.mp hmaxmem).2,
        m1, ?_, ?_⟩,
      ⟨(mem_scanPositions.mp hminmem).1, (mem_scanPositions.mp hminmem).2,
        n1, ?_, ?_⟩⟩
    · intro i j hi hj
      have hm : (i, j) ∈ p :: ps := by
        rw [← hscan]; exact mem_scanPositions.mpr ⟨hi, hj⟩
      rcases List.mem_cons.mp hm with h | h
      · rw [← h] at m2; exact m2
      · exact m3 (i, j) h
    · intro i j hi hj hf
      have hm : (i, j) ∈ p :: ps := by
        rw [← hscan]; exact mem_scanPositions.mpr ⟨hi, hj⟩
      rcases List.mem_cons.mp hm with h | h
      · have hL : r.maxLoc = p := m5 (by rw [← h]; exact hf.symm)
        rw [hL, h]
        exact lexLE_refl p
      · exact m6 (i, j) h hf
    · intro i j hi hj
      have hm : (i, j) ∈ p :: ps := by
        rw [← hscan]; exact mem_scanPositions.mpr ⟨hi, hj⟩
      rcases List.mem_cons.mp hm with h | h
      · rw [← h] at n2; exact n2
      · exact n3 (i, j) h
    · intro i j hi hj hf
      have hm : (i, j) ∈ p :: ps := by
        rw [← hscan]; exact mem_scanPositions.mpr ⟨hi, hj⟩
      rcases List.mem_cons.mp hm with h | h
      · have hL : r.minLoc = p := n5 (by rw [← h]; exact hf.symm)
        rw [hL, h]
        exact lexLE_refl p
      · exact n6 (i, j) h hf

/-- Claim C2 witness: on the concrete 2×2 surface `tieSurface` — maximum `5`
tied at `(0,1)` and `(1,0)`, minimum `0` tied at `(0,0)` and `(1,1)` — the
scan returns the row-major-first cell of each tie, and both returned
locations row-major-precede the other tied cell. -/
theorem C2_witness :
    minMaxLoc tieSurface 2 2 = some tieResult ∧
    lexLE tieResult.maxLoc (1, 0) ∧ lexLE tieResult.minLoc (1, 1) := by
  have h : minMaxLoc tieSurface 2 2 = some tieResult := by decide
  have hc := C2_minMaxLoc_first_occurrence tieSurface 2 2 tieResult h
  exact ⟨h, hc.1.2.2.2.2 1 0 (by decide) (by decide) (by decide),
    hc.2.2.2.2.2 1 1 (by decide) (by decide) (by decide)⟩

lemma wrap32_le_self {z : ℤ} (h0 : 0 ≤ z) : wrap32 z ≤ z := by
  unfold wrap32
  omega

lemma wrap32_eq_self {z : ℤ} (h0 : 0 ≤ z) (hmax : z ≤ int32Max) : wrap32 z = z := by
  unfold wrap32 int32Max at *
  omega

lemma setRegion_rejects_without_overflow (σ : Store) (i : ℕ) (m : ZMat)
    (hlive : lookupLive σ i = some m) (x y w h : ℤ) (v : ℚ)
    (hxw : x + w ≤ int32Max) (hyh : y + h ≤ int32Max)
    (hbad : x < 0 ∨ y < 0 ∨ w ≤ 0 ∨ h ≤ 0
      ∨ x + w > (m.cols : ℤ) ∨ y + h > (m.rows : ℤ)) :
    zikuli_mat_set_region σ (some i) x y w h v = some (-1, σ) := by
  simp only [zikuli_mat_set_region, hlive]
  by_cases hc1 : x < 0 ∨ y < 0 ∨ w ≤ 0 ∨ h ≤ 0
  · rw [if_pos hc1]
  · rw [if_neg hc1]
    push_neg at hc1
    obtain ⟨hx0, hy0, hw0, hh0⟩ := hc1
    rw [wrap32_eq_self (by omega) hxw, wrap32_eq_self (by omega) hyh]
    have hc2 : x + w > (m.cols : ℤ) ∨ y + h > (m.rows : ℤ) := by
      rcases hbad with h1 | h1 | h1 | h1 | h1 | h1
      · omega
      · omega
      · omega
      · omega
      · exact Or.inl h1
      · exact Or.inr h1
    rw [if_pos hc2]

/-- Claim C3 code bug.  The claim (and spec §4.1) says a rectangle with
`x + width > cols` is rejected with an error and no mutation, and indeed it
is whenever the source's int32 additions do not overflow
(`setRegion_rejects_without_overflow`).  But at `x = 2^31 − 1`, `width = 1`
on a live 1×1 buffer — where mathematically `x + width = 2^31 > cols` —
the source's `x + width` overflows int32 and wraps to `−2^31`, the bounds
check is bypassed, and the call falls through into `setTo`: it returns
success, not `-1`, and mutates, writing the scalar at the (out-of-bounds)
column `2^31 − 1` of the one-column buffer. -/
theorem C3_overflow_bypasses_validation :
    (2147483647 : ℤ) + 1 > (exampleMat.cols : ℤ)
    ∧ zikuli_mat_set_region [some exampleMat] (some 0) 2147483647 0 1 1 5
        = some (0,
            [some { exampleMat with data := setRegionData exampleMat 2147483647 0 1 1 5 }])
    ∧ zikuli_mat_set_region [some exampleMat] (some 0) 2147483647 0 1 1 5
        ≠ some (-1, [some exampleMat])
    ∧ setRegionData exampleMat 2147483647 0 1 1 5 0 2147483647 0 = 5 := by
  have hlook : lookupLive [some exampleMat] 0 = some exampleMat := rfl
  refine ⟨by decide, ?_, ?_, by decide⟩
  · simp only [zikuli_mat_set_region, hlook]
    norm_num [wrap32, exampleMat]
  · intro hcon
    simp only [zikuli_mat_set_region, hlook] at hcon
    norm_num [wrap32, exampleMat] at hcon

/-- Claim C4.  For every live buffer and in-bounds rectangle,
`zikuli_mat_set_region` succeeds (code `0`); afterwards every sample inside
the rectangle across all channels equals the scalar, every sample outside
it is unchanged, and every other buffer of the store is untouched. -/
theorem C4_setRegion_valid (σ : Store) (i : ℕ) (m : ZMat)
    (hlive : lookupLive σ i = some m) (x y w h : ℤ) (v : ℚ)
    (hx : 0 ≤ x) (hy : 0 ≤ y) (hw : 0 < w) (hh : 0 < h)
    (hxw : x + w ≤ (m.cols : ℤ)) (hyh : y + h ≤ (m.rows : ℤ)) :
    zikuli_mat_set_region σ (some i) x y w h v
      = some (0, σ.set i (some { m with data := setRegionData m x y w h v }))
    ∧ (∀ r c ch : ℕ, y ≤ (r : ℤ) → (r : ℤ) < y + h → x ≤ (c : ℤ) → (c : ℤ) < x + w →
        setRegionData m x y w h v r c ch = v)
    ∧ (∀ r c ch : ℕ,
        ¬(y ≤ (r : ℤ) ∧ (r : ℤ) < y + h ∧ x ≤ (c : ℤ) ∧ (c : ℤ) < x + w) →
        setRegionData m x y w h v r c ch = m.data r c ch)
    ∧ (∀ j : ℕ, j ≠ i →
        (σ.set i (some { m with data := setRegionData m x y w h v }))[j]? = σ[j]?) := by
  refine ⟨?_, ?_, ?_, ?_⟩
  · simp only [zikuli_mat_set_region, hlive]
    rw [if_neg (by push_neg; exact ⟨hx, hy, hw, hh⟩),
      if_neg (by
        push_neg
        exact ⟨le_trans (wrap32_le_self (by omega)) hxw,
          le_trans (wrap32_le_self (by omega)) hyh⟩)]
  · intro r c ch h1 h2 h3 h4
    unfold setRegionData
    rw [if_pos ⟨h1, h2, h3, h4⟩]
  · intro r c ch hout
    unfold setRegionData
    rw [if_neg hout]
  · intro j hj
    exact List.getElem?_set_ne (fun he => hj he.symm)

/-- Claim C4 witness: setting the rectangle `(0, 0, 1, 1)` to `5` on a live
1×1 buffer succeeds, the inside sample reads `5`, an outside sample is
unchanged. -/
theorem C4_witness :
    zikuli_mat_set_region [some exampleMat] (some 0) 0 0 1 1 5
      = some (0, [some { exampleMat with data := setRegionData exampleMat 0 0 1 1 5 }])
    ∧ setRegionData exampleMat 0 0 1 1 5 0 0 0 = 5
    ∧ setRegionData exampleMat 0 0 1 1 5 1 1 0 = exampleMat.data 1 1 0 := by
  have hc := C4_setRegion_valid [some exampleMat] 0 exampleMat rfl 0 0 1 1 5
    (by decide) (by decide) (by decide) (by decide) (by decide) (by decide)
  exact ⟨hc.1, hc.2.1 0 0 0 (by decide) (by decide) (by decide) (by decide),
    hc.2.2.1 1 1 0 (by decide)⟩

/-- Claim C5.  For every input violating `zikuli_match_template`'s
preconditions — a null scene, template, or result handle, or live buffers
with a template larger than the scene or mismatched channel count or
element type — the call returns `-1` (no crash, no exception propagated)
and the store, hence every existing buffer, is unchanged.  This holds for
every engine the wrapper could delegate to. -/
theorem C5_matchTemplate_failure (engine : MatchMethod → ZMat → ZMat → ZMat)
    (σ : Store) (image templ result : Handle) (method : MatchMethod)
    (hbad : image = none ∨ templ = none ∨ result = none
      ∨ (∃ i t rr S T R, image = some i ∧ templ = some t ∧ result = some rr
          ∧ lookupLive σ i = some S ∧ lookupLive σ t = some T
          ∧ lookupLive σ rr = some R ∧ ¬matchPrecondOK S T)) :
    zikuli_match_template engine σ image templ result method = some (-1, σ) := by
  rcases hbad with rfl | rfl | rfl | ⟨i, t, rr, S, T, R, rfl, rfl, rfl, hS, hT, hR, hpre⟩
  · cases templ <;> cases result <;> rfl
  · cases image <;> cases result <;> rfl
  · cases image <;> cases templ <;> rfl
  · simp only [zikuli_match_template, hS, hT, hR]
    rw [if_neg hpre]

/-- Claim C5 witness: live 1×1 scene and live 2×2 template (template larger
than scene) yield `-1` and an unchanged store, for a concrete engine. -/
theorem C5_witness :
    zikuli_match_template (fun _ S T => sqdiffSurface S T)
      [some exampleMat, some bigMat] (some 0) (some 1) (some 0)
      MatchMethod.SQDIFF = some (-1, [some exampleMat, some bigMat]) :=
  C5_matchTemplate_failure (fun _ S T => sqdiffSurface S T)
    [some exampleMat, some bigMat] (some 0) (some 1) (some 0) MatchMethod.SQDIFF
    (Or.inr (Or.inr (Or.inr
      ⟨0, 1, 0, exampleMat, bigMat, exampleMat, rfl, rfl, rfl, rfl, rfl, rfl,
        by decide⟩)))

/-- Claim C6 counterexample.  Releasing a live handle frees its slot; a
second release of the same (now dangling, non-null) handle hits the
unguarded `delete` again — a double free, i.e. undefined behaviour
(`none`), not a no-op.  So `zikuli_mat_release` is not idempotent on
non-null handles. -/
theorem C6_counterexample :
    zikuli_mat_release [some exampleMat] (some 0) = some [none]
    ∧ zikuli_mat_release [none] (some 0) = none
    ∧ (none : Option Store) ≠ some [none] := by
  refine ⟨rfl, rfl, ?_⟩
  intro hcon
  cases hcon

/-- Claim C6 (amended).  Releasing a null handle is a no-op with defined
behavior, and releasing a live handle deallocates its owned storage exactly
once (the slot becomes freed, so the buffer is gone).  Releasing an
already-released handle is not defended against: only the null check
guards the `delete`. -/
theorem C6_release_once (σ : Store) (i : ℕ) (m : ZMat)
    (hlive : lookupLive σ i = some m) :
    zikuli_mat_release σ none = some σ
    ∧ zikuli_mat_release σ (some i) = some (σ.set i none)
    ∧ lookupLive (σ.set i none) i = none := by
  refine ⟨rfl, ?_, ?_⟩
  · simp only [zikuli_mat_release, hlive]
  · have hlen : i < σ.length := by
      by_contra hge
      have : σ[i]? = none := List.getElem?_eq_none (le_of_not_lt hge)
      rw [lookupLive, this] at hlive
      cases hlive
    rw [lookupLive, List.getElem?_set_self hlen]
    rfl

/-- Claim C6 witness: on a store with one live buffer, releasing null is a
no-op, releasing handle `0` frees slot `0`, after which the slot is dead. -/
theorem C6_witness :
    zikuli_mat_release [some exampleMat] none = some [some exampleMat]
    ∧ zikuli_mat_release [some exampleMat] (some 0) = some [none]
    ∧ lookupLive [none] 0 = none := by
  have hc := C6_release_once [some exampleMat] 0 exampleMat rfl
  exact ⟨hc.1, hc.2.1, hc.2.2⟩

/-- Claim C7.  Every buffer handed out by a successful construction —
`zikuli_mat_create` or `zikuli_mat_create_with_data` — satisfies the
data-model invariant: `rows > 0`, `cols > 0`, and
`stride ≥ cols · channels · elemSize(type)`. -/
theorem C7_construction_invariant (σ : Store) (rows cols : ℤ)
    (depth : ElemDepth) (channels : ℕ) (data : ℕ → ℕ → ℕ → ℚ) (step : ℤ) :
    (∀ h σ2, zikuli_mat_create σ rows cols depth channels = (some h, σ2) →
      ∀ m, lookupLive σ2 h = some m →
        0 < m.rows ∧ 0 < m.cols ∧ m.cols * m.channels * elemSize m.depth ≤ m.stride)
    ∧ (∀ h σ2,
        zikuli_mat_create_with_data σ rows cols depth channels data step = (some h, σ2) →
        ∀ m, lookupLive σ2 h = some m →
          0 < m.rows ∧ 0 < m.cols ∧ m.cols * m.channels * elemSize m.depth ≤ m.stride) := by
  constructor
  · intro h σ2 heq m hm
    unfold zikuli_mat_create at heq
    by_cases hvalid : rows ≤ 0 ∨ cols ≤ 0
    · rw [if_pos hvalid] at heq
      cases (Prod.mk.injEq _ _ _ _ ▸ heq).1
    · rw [if_neg hvalid] at heq
      push_neg at hvalid
      obtain ⟨hh, hσ⟩ := Prod.mk.injEq _ _ _ _ ▸ heq
      subst hσ
      rw [← Option.some.inj hh, lookupLive, List.getElem?_concat_length σ _] at hm
      rw [← Option.some.inj hm]
      dsimp only
      refine ⟨?_, ?_, le_refl _⟩ <;> omega
  · intro h σ2 heq m hm
    unfold zikuli_mat_create_with_data at heq
    by_cases hvalid : rows ≤ 0 ∨ cols ≤ 0 ∨ step < cols * (channels : ℤ) * (elemSize depth : ℤ)
    · rw [if_pos hvalid] at heq
      cases (Prod.mk.injEq _ _ _ _ ▸ heq).1
    · rw [if_neg hvalid] at heq
      push_neg at hvalid
      obtain ⟨hh, hσ⟩ := Prod.mk.injEq _ _ _ _ ▸ heq
      subst hσ
      rw [← Option.some.inj hh, lookupLive, List.getElem?_concat_length σ _] at hm
      rw [← Option.some.inj hm]
      dsimp only
      refine ⟨?_, ?_, le_refl _⟩
      · have := hvalid.1
        omega
      · have := hvalid.2.1
        omega

/-- Claim C7 witness: concrete 1×1 constructions by both constructors
succeed and the handed-out buffers satisfy the invariant. -/
theorem C7_witness :
    zikuli_mat_create [] 1 1 ElemDepth.u8 1 = (some 0, [some cBuf])
    ∧ zikuli_mat_create_with_data [] 1 1 ElemDepth.u8 1 (fun _ _ _ => 3) 1
        = (some 0, [some dBuf])
    ∧ (0 < cBuf.rows ∧ 0 < cBuf.cols
        ∧ cBuf.cols * cBuf.channels * elemSize cBuf.depth ≤ cBuf.stride)
    ∧ (0 < dBuf.rows ∧ 0 < dBuf.cols
        ∧ dBuf.cols * dBuf.channels * elemSize dBuf.depth ≤ dBuf.stride) := by
  have hc := C7_construction_invariant [] 1 1 ElemDepth.u8 1 (fun _ _ _ => 3) 1
  exact ⟨rfl, rfl, hc.1 0 [some cBuf] rfl cBuf rfl, hc.2 0 [some dBuf] rfl dBuf rfl⟩

lemma findMatchesAux_length (minimize : Bool) (thr : ℚ) (tr tc rows cols : ℕ) :
    ∀ (n : ℕ) (W : ℕ → ℕ → Option ℚ),
      (findMatchesAux minimize thr tr tc rows cols n W).length ≤ n := by
  intro n
  induction n with
  | zero => intro W; simp [findMatchesAux]
  | succ k ih =>
    intro W
    simp only [findMatchesAux]
    cases hb : bestCand minimize W rows cols with
    | none => simp
    | some pv =>
      obtain ⟨p, v⟩ := pv
      dsimp only
      by_cases hp : passesThreshold minimize thr v = true
      · rw [if_pos hp]
        simpa using Nat.succ_le_succ (ih (suppressRect W p tr tc))
      · rw [if_neg hp]
        simp

/-- Claim C8.  For every method, threshold, surface, and cap `maxMatches = N`,
`findMatches` returns at most `N` accepted matches, and the loop (a total
function, so it always terminates) stops as soon as the entire working
surface has been suppressed (no candidate remains) or the best remaining
candidate fails the threshold — and the budget bound enforces the cap. -/
theorem C8_findMatches_cap_and_stops (method : MatchMethod) (thr : ℚ)
    (maxMatches tr tc rows cols : ℕ) (W : ℕ → ℕ → Option ℚ) :
    (findMatches method thr maxMatches tr tc rows cols W).length ≤ maxMatches
    ∧ (∀ (n : ℕ) (W2 : ℕ → ℕ → Option ℚ),
        bestCand (methodMinimizes method) W2 rows cols = none →
        findMatchesAux (methodMinimizes method) thr tr tc rows cols (n + 1) W2 = [])
    ∧ (∀ (n : ℕ) (W2 : ℕ → ℕ → Option ℚ) (p : ℕ × ℕ) (v : ℚ),
        bestCand (methodMinimizes method) W2 rows cols = some (p, v) →
        passesThreshold (methodMinimizes method) thr v = false →
        findMatchesAux (methodMinimizes method) thr tr tc rows cols (n + 1) W2 = []) := by
  refine ⟨findMatchesAux_length _ _ _ _ _ _ _ W, ?_, ?_⟩
  · intro n W2 hb
    simp [findMatchesAux, hb]
  · intro n W2 p v hb hp
    simp [findMatchesAux, hb, hp]

/-- Claim C8 witness: with cap `2` on a 1×1 surface whose single cell scores
`0` against a minimizing threshold `0`, at most two matches come back; a
fully suppressed surface stops immediately; a candidate failing the
threshold stops immediately. -/
theorem C8_witness :
    (findMatches MatchMethod.SQDIFF 0 2 1 1 1 1 oneCellSurface).length ≤ 2
    ∧ findMatchesAux true 0 1 1 1 1 1 emptySurface = []
    ∧ findMatchesAux true 0 1 1 1 1 1 oneCellFailSurface = [] := by
  have hc := C8_findMatches_cap_and_stops MatchMethod.SQDIFF 0 2 1 1 1 1 oneCellSurface
  exact ⟨hc.1, hc.2.1 0 emptySurface (by decide),
    hc.2.2 0 oneCellFailSurface (0, 0) 1 (by decide) (by decide)⟩

/-- Claim C9 counterexample.  The accessors only defend the null pointer: a
non-null handle whose buffer has already been released is dereferenced
(`mat->mat.rows` on freed storage), which is undefined behaviour (`none`),
not the claimed defined sentinel (`some 0` / `some none`). -/
theorem C9_counterexample :
    zikuli_mat_rows [none] (some 0) = none
    ∧ zikuli_mat_cols [none] (some 0) = none
    ∧ zikuli_mat_step [none] (some 0) = none
    ∧ zikuli_mat_data [none] (some 0) = none
    ∧ zikuli_mat_rows [none] (some 0) ≠ some 0 := by
  refine ⟨rfl, rfl, rfl, rfl, ?_⟩
  intro hcon
  cases hcon

/-- Claim C9 (amended).  For every null handle, the accessors return the
defined sentinel values — `0` for rows, cols, and stride, the null pointer
for data — rather than failing; only dangling (released) handles are not
defended. -/
theorem C9_null_sentinels (σ : Store) :
    zikuli_mat_rows σ none = some 0
    ∧ zikuli_mat_cols σ none = some 0
    ∧ zikuli_mat_step σ none = some 0
    ∧ zikuli_mat_data σ none = some none :=
  ⟨rfl, rfl, rfl, rfl⟩

/-- Claim C10.  For live scene, template, and result handles (the result a
distinct buffer from scene and template), `zikuli_match_template` writes
only into the result slot: the call is defined, every other store slot is
bit-identical afterwards, and in particular the scene and template buffers
— contents, dimensions, and element type — are unchanged, whether the call
succeeds or fails.  This holds for every engine. -/
theorem C10_matchTemplate_frame (engine : MatchMethod → ZMat → ZMat → ZMat)
    (σ : Store) (i t rr : ℕ) (method : MatchMethod) (S T R : ZMat)
    (hS : lookupLive σ i = some S) (hT : lookupLive σ t = some T)
    (hR : lookupLive σ rr = some R) (hri : rr ≠ i) (hrt : rr ≠ t) :
    (zikuli_match_template engine σ (some i) (some t) (some rr) method).isSome = true
    ∧ (∀ code σ2,
        zikuli_match_template engine σ (some i) (some t) (some rr) method
          = some (code, σ2) →
        (∀ j : ℕ, j ≠ rr → σ2[j]? = σ[j]?)
        ∧ lookupLive σ2 i = some S ∧ lookupLive σ2 t = some T) := by
  constructor
  · simp only [zikuli_match_template, hS, hT, hR]
    by_cases hp : matchPrecondOK S T
    · rw [if_pos hp]; rfl
    · rw [if_neg hp]; rfl
  · intro code σ2 heq
    simp only [zikuli_match_template, hS, hT, hR] at heq
    by_cases hp : matchPrecondOK S T
    · rw [if_pos hp] at heq
      obtain ⟨hc, hσ⟩ := Prod.mk.injEq _ _ _ _ ▸ Option.some.inj heq
      subst hσ
      refine ⟨fun j hj => List.getElem?_set_ne (fun he => hj he.symm), ?_, ?_⟩
      · rw [lookupLive, List.getElem?_set_ne hri]; exact hS
      · rw [lookupLive, List.getElem?_set_ne hrt]; exact hT
    · rw [if_neg hp] at heq
      obtain ⟨hc, hσ⟩ := Prod.mk.injEq _ _ _ _ ▸ Option.some.inj heq
      subst hσ
      exact ⟨fun _ _ => rfl, hS, hT⟩

/-- Claim C10 witness: a concrete three-buffer store, scene handle `0`,
template handle `1`, result handle `2` — the call is defined, slot `0` is
untouched, and the scene buffer is unchanged after the call. -/
theorem C10_witness :
    (zikuli_match_template (fun _ S T => sqdiffSurface S T) exStore3
      (some 0) (some 1) (some 2) MatchMethod.SQDIFF).isSome = true
    ∧ (exStore3.set 2 (some (sqdiffSurface exampleMat exampleMat)))[0]? = exStore3[0]?
    ∧ lookupLive (exStore3.set 2 (some (sqdiffSurface exampleMat exampleMat))) 0
        = some exampleMat := by
  have hc := C10_matchTemplate_frame (fun _ S T => sqdiffSurface S T) exStore3
    0 1 2 MatchMethod.SQDIFF exampleMat exampleMat exampleMat rfl rfl rfl
    (by decide) (by decide)
  have hout := hc.2 0 (exStore3.set 2 (some (sqdiffSurface exampleMat exampleMat))) rfl
  exact ⟨hc.1, hout.1 0 (by decide), hout.2.1⟩

end Zikuli
